import Mathlib

/-!
Verification development for the heuristic footwear-extraction engine
(`parse_universal.py`).  The Python functions are shallowly embedded as
executable Lean definitions:

* Python `str` values become `String` / `List Char` (ASCII-level models of
  `lower`, `strip`, `split`, `title`, `isupper`, `isalpha`);
* prices (Python floats parsed from decimal text) become exact cent counts
  (`Nat`), so `5 <= price <= 2000` becomes `500 ≤ cents ≤ 200000`;
* the HTML soup becomes an explicit tree type `Node`; BeautifulSoup
  queries (`find_all`, `get_text`, class matching) are implemented over
  that tree with bs4's structural element equality and pre-order
  traversal;
* every regular expression of the source is implemented as a dedicated
  scanner that reproduces Python `re` semantics (leftmost scan,
  non-overlapping `findall`, greedy quantifiers with backtracking) for
  that particular pattern.

A note on encoding: in the repository file the euro and pound signs were
double-encoded, so the Python string literals are actually the character
sequences "â‚¬" (three chars) and "Â£" (two chars), not "€"/"£".  The
embedding reproduces those exact literals.
-/

namespace FootwearScrape

/-! ### Python string primitives (ASCII-level) -/

/-- Python `\s` / `str.strip` whitespace (ASCII subset). -/
def isSpaceChar (c : Char) : Bool :=
  c = ' ' || c = '\t' || c = '\n' || c = '\r' || c = '\x0b' || c = '\x0c'

def isDigitChar (c : Char) : Bool := '0' ≤ c && c ≤ '9'

def isAsciiLower (c : Char) : Bool := 'a' ≤ c && c ≤ 'z'

def isAsciiUpper (c : Char) : Bool := 'A' ≤ c && c ≤ 'Z'

def isAlphaChar (c : Char) : Bool := isAsciiLower c || isAsciiUpper c

/-- Python `\w` word character (ASCII subset). -/
def isWordChar (c : Char) : Bool := isAlphaChar c || isDigitChar c || c = '_'

def lowerChar (c : Char) : Char :=
  if isAsciiUpper c then Char.ofNat (c.toNat + 32) else c

def upperChar (c : Char) : Char :=
  if isAsciiLower c then Char.ofNat (c.toNat - 32) else c

def lowerL (s : List Char) : List Char := s.map lowerChar

def stripL (s : List Char) : List Char :=
  ((s.dropWhile isSpaceChar).reverse.dropWhile isSpaceChar).reverse

/-- `isPrefixL pat s`: does `s` start with `pat`? -/
def isPrefixL : List Char → List Char → Bool
  | [], _ => true
  | _ :: _, [] => false
  | p :: ps, c :: cs => p == c && isPrefixL ps cs

/-- Python `pat in s` (substring test). -/
def containsL (s pat : List Char) : Bool := s.tails.any (isPrefixL pat)

def pyLower (s : String) : String := ⟨lowerL s.data⟩

def pyUpper (s : String) : String := ⟨s.data.map upperChar⟩

def pyStrip (s : String) : String := ⟨stripL s.data⟩

def pyContains (s pat : String) : Bool := containsL s.data pat.data

def pyStartsWith (s pat : String) : Bool := isPrefixL pat.data s.data

def pyLen (s : String) : Nat := s.data.length

/-- Python `s[:n]`. -/
def pyTake (s : String) (n : Nat) : String := ⟨s.data.take n⟩

/-- Python `str.split()` (split on whitespace runs, no empty tokens). -/
def splitWSAux : List Char → List Char → List (List Char)
  | [], acc => if acc.isEmpty then [] else [acc.reverse]
  | c :: cs, acc =>
    if isSpaceChar c then
      if acc.isEmpty then splitWSAux cs [] else acc.reverse :: splitWSAux cs []
    else splitWSAux cs (c :: acc)

def pySplitWS (s : String) : List String :=
  (splitWSAux s.data []).map fun l => ⟨l⟩

/-- Python `str.split(sep)` for a one-character separator (keeps empties). -/
def splitOnCharL (sep : Char) : List Char → List (List Char)
  | [] => [[]]
  | c :: cs =>
    let r := splitOnCharL sep cs
    if c == sep then [] :: r
    else
      match r with
      | g :: gs => (c :: g) :: gs
      | [] => [[c]]

def pySplitOn (s : String) (sep : Char) : List String :=
  (splitOnCharL sep s.data).map fun l => ⟨l⟩

/-- Python `str.replace(old, new)` (left-to-right, non-overlapping).
    Structural recursion on a fuel argument; every step consumes at least
    one character, so fuel `s.length` never runs out. -/
def replaceGo (old new : List Char) : Nat → List Char → List Char
  | _, [] => []
  | 0, s => s
  | fuel + 1, c :: cs =>
    if isPrefixL old (c :: cs) then new ++ replaceGo old new fuel (cs.drop (old.length - 1))
    else c :: replaceGo old new fuel cs

def pyReplace (s old new : String) : String :=
  if old.data.isEmpty then s else ⟨replaceGo old.data new.data s.data.length s.data⟩

/-- Python `str.title()` (ASCII model: first letter of each alphabetic run
    upper-cased, the rest lower-cased). -/
def titleGo : Bool → List Char → List Char
  | _, [] => []
  | prev, c :: cs =>
    if isAlphaChar c then
      (if prev then lowerChar c else upperChar c) :: titleGo true cs
    else c :: titleGo false cs

def pyTitle (s : String) : String := ⟨titleGo false s.data⟩

/-- Python `str.isupper()` (ASCII model: at least one letter, no lowercase
    letter). -/
def pyIsUpper (s : String) : Bool :=
  s.data.any isAlphaChar && !(s.data.any isAsciiLower)

/-- Python `str.rstrip('/')`. -/
def pyRstripSlash (s : String) : String :=
  ⟨(s.data.reverse.dropWhile (· == '/')).reverse⟩

/-! ### The numeric core of the price regexes

The price patterns share the number fragment
`\d{1,4}(?:,\d{3})*` followed by a required / absent / optional `\.\d{2}`.
Each scanner below returns the candidate (matched text, rest) pairs in the
exact backtracking priority order of the Python `re` engine (greedy, so
longest alternatives first). -/

def dropSpacesL (s : List Char) : List Char := s.dropWhile isSpaceChar

/-- Candidates for `\d{1,4}` (greedy: most digits first). -/
def digits14 (s : List Char) : List (List Char × List Char) :=
  let n := min (s.takeWhile isDigitChar).length 4
  (List.range n).map fun i => (s.take (n - i), s.drop (n - i))

/-- Candidates for `(?:,\d{3})*` (greedy: most groups first). -/
def commaGroups : List Char → List (List Char × List Char)
  | s@(',' :: d1 :: d2 :: d3 :: rest) =>
    if isDigitChar d1 && isDigitChar d2 && isDigitChar d3 then
      (commaGroups rest).map (fun p => (',' :: d1 :: d2 :: d3 :: p.1, p.2)) ++ [([], s)]
    else [([], s)]
  | s => [([], s)]

/-- `\.\d{2}` at a position. -/
def dec2 : List Char → Option (List Char × List Char)
  | '.' :: a :: b :: rest =>
    if isDigitChar a && isDigitChar b then some (['.', a, b], rest) else none
  | _ => none

inductive DecMode where
  | required
  | absent
  | optional

def decCands : DecMode → List Char → List (List Char × List Char)
  | .required, s => match dec2 s with | some p => [p] | none => []
  | .absent, s => [([], s)]
  | .optional, s => match dec2 s with | some p => [p, ([], s)] | none => [([], s)]

/-- Candidates for the full number fragment, in backtracking order. -/
def numCands (m : DecMode) (s : List Char) : List (List Char × List Char) :=
  (digits14 s).flatMap fun d =>
    (commaGroups d.2).flatMap fun g =>
      (decCands m g.2).map fun f => (d.1 ++ g.1 ++ f.1, f.2)

def digitsToNat (ds : List Char) : Nat :=
  ds.foldl (fun a c => 10 * a + (c.toNat - 48)) 0

/-- `float(match.replace(',', ''))` for a matched number group, in cents. -/
def centsOfGroup (g : List Char) : Nat :=
  let g := g.filter (fun c => c != ',')
  match g.span (fun c => c != '.') with
  | (ip, []) => 100 * digitsToNat ip
  | (ip, _ :: fp) => 100 * digitsToNat ip + digitsToNat fp

/-! ### The six price patterns of `extract_price_bulletproof` -/

/-- Euro sign as it appears in the source file (double-encoded): the Python
    literal is the three characters U+00E2 U+201A U+00AC. -/
def euroMoji : String := "â‚¬"

/-- Pound sign as it appears in the source file (double-encoded): the Python
    literal is the two characters U+00C2 U+00A3. -/
def poundMoji : String := "Â£"

/-- `\$\s*(\d{1,4}(?:,\d{3})*(?:\.\d{2}))` at a position. -/
def pat1At : List Char → Option (List Char × List Char)
  | '$' :: s => (numCands .required (dropSpacesL s)).head?
  | _ => none

/-- `\$\s*(\d{1,4}(?:,\d{3})*)` at a position. -/
def pat2At : List Char → Option (List Char × List Char)
  | '$' :: s => (numCands .absent (dropSpacesL s)).head?
  | _ => none

/-- `(\d{1,4}(?:,\d{3})*(?:\.\d{2}))\s*\$` at a position. -/
def pat3At (s : List Char) : Option (List Char × List Char) :=
  (numCands .required s).findSome? fun gr =>
    match dropSpacesL gr.2 with
    | '$' :: r2 => some (gr.1, r2)
    | _ => none

/-- The euro pattern at a position (prefix is the mojibake euro literal). -/
def pat4At (s : List Char) : Option (List Char × List Char) :=
  if isPrefixL euroMoji.data s then
    (numCands .optional (dropSpacesL (s.drop euroMoji.data.length))).head?
  else none

/-- The pound pattern at a position (prefix is the mojibake pound literal). -/
def pat5At (s : List Char) : Option (List Char × List Char) :=
  if isPrefixL poundMoji.data s then
    (numCands .optional (dropSpacesL (s.drop poundMoji.data.length))).head?
  else none

/-- `(\d{1,4}(?:,\d{3})*(?:\.\d{2}))\s*USD` at a position. -/
def pat6At (s : List Char) : Option (List Char × List Char) :=
  (numCands .required s).findSome? fun gr =>
    match dropSpacesL gr.2 with
    | 'U' :: 'S' :: 'D' :: r2 => some (gr.1, r2)
    | _ => none

/-- `re.findall` driver: scan left to right; on a match, emit the group and
    resume after the match (advance one position on failure; a match that
    would not consume input also advances one position, as in Python).
    Structural recursion on a fuel argument; every step strictly shortens
    the input, so fuel `s.length` never runs out. -/
def findAllGo (pAt : List Char → Option (List Char × List Char)) :
    Nat → List Char → List (List Char)
  | _, [] => []
  | 0, _ => []
  | fuel + 1, c :: rest =>
    match pAt (c :: rest) with
    | some (g, r) =>
      if r.length < rest.length + 1 then g :: findAllGo pAt fuel r
      else g :: findAllGo pAt fuel rest
    | none => findAllGo pAt fuel rest

def findAllM (pAt : List Char → Option (List Char × List Char))
    (s : List Char) : List (List Char) :=
  findAllGo pAt s.length s

/-! ### `extract_price_bulletproof` -/

def skip_indicators : List String :=
  ["off", "save", "discount", "free", "shipping", "member", "employee",
   "review", "rating", "star", "sold", "available", "stock",
   "color", "size", "width", "length", "style"]

def currencySymbols : List String := ["$", euroMoji, poundMoji]

/-- The six patterns, each as findall returning values in cents. -/
def patternFns : List (List Char → List Nat) :=
  [ fun s => (findAllM pat1At s).map centsOfGroup
  , fun s => (findAllM pat2At s).map centsOfGroup
  , fun s => (findAllM pat3At s).map centsOfGroup
  , fun s => (findAllM pat4At s).map centsOfGroup
  , fun s => (findAllM pat5At s).map centsOfGroup
  , fun s => (findAllM pat6At s).map centsOfGroup ]

/-- `5 <= price <= 2000`, in cents. -/
def inRangeB (p : Nat) : Bool := 500 ≤ p && p ≤ 200000

/-- The pattern loop: first pattern with a match in range wins. -/
def patternLoop : List (List Char → List Nat) → List Char → Option Nat
  | [], _ => none
  | f :: fs, t =>
    let ms := f t
    if ms.isEmpty then patternLoop fs t
    else
      match ms.find? inRangeB with
      | some p => some p
      | none => patternLoop fs t

/-- The two early-rejection guards of `extract_price_bulletproof`, applied
    to the stripped text: percent-without-dollar, and noise word without a
    currency symbol. -/
def priceGuardsReject (t : String) : Bool :=
  (pyContains t ("%") && !(pyContains t ("$"))) ||
  (skip_indicators.any (fun ind => pyContains (pyLower t) ind) &&
    !(currencySymbols.any (fun sym => pyContains t sym)))

def extract_price_bulletproof (text : String) : Option Nat :=
  if text = "" then none
  else
    let t := pyStrip text
    if priceGuardsReject t then none
    else patternLoop patternFns t.data

/-! ### `is_promotional_text`

Each promotional regex is deterministic (its greedy pieces are over
disjoint character classes), so the at-position matchers below are direct
transcriptions; `re.search` is an `any` over suffixes. -/

def searchP (p : List Char → Bool) (s : List Char) : Bool := s.tails.any p

def litP (pat : List Char) (k : List Char → Bool) (s : List Char) : Bool :=
  isPrefixL pat s && k (s.drop pat.length)

def spacesP (k : List Char → Bool) (s : List Char) : Bool := k (dropSpacesL s)

def spaces1P (k : List Char → Bool) (s : List Char) : Bool :=
  let n := (s.takeWhile isSpaceChar).length
  decide (1 ≤ n) && k (s.drop n)

def digits1P (k : List Char → Bool) (s : List Char) : Bool :=
  let n := (s.takeWhile isDigitChar).length
  decide (1 ≤ n) && k (s.drop n)

/-- `\$?` (or any optional single character) with backtracking. -/
def optCharP (c : Char) (k : List Char → Bool) (s : List Char) : Bool :=
  match s with
  | x :: rest => if x == c then (k rest || k s) else k s
  | [] => k s

def trueP : List Char → Bool := fun _ => true

/-- The eight promotional patterns, searched on `text.lower().strip()`. -/
def promoPats : List (List Char → Bool) :=
  [ litP ("$".data) (digits1P (spacesP (litP ("off".data) trueP)))
  , digits1P (spacesP (litP ("off".data) trueP))
  , litP ("save".data) (spacesP (optCharP '$' (digits1P trueP)))
  , litP ("extra".data) (spacesP (optCharP '$' (digits1P trueP)))
  , litP ("limited".data) (spacesP (litP ("time".data) trueP))
  , litP ("discount".data) (spacesP (optCharP '$' (digits1P trueP)))
  , litP ("member".data) (spacesP (optCharP '$' (digits1P trueP)))
  , litP ("get".data) (spacesP (optCharP '$' (digits1P (spacesP (litP ("off".data) trueP))))) ]

def is_promotional_text (text : String) : Bool :=
  if text = "" then false
  else
    let tl := pyStrip (pyLower text)
    promoPats.any (fun p => searchP p tl.data)

/-! ### `calculate_discount` and record formatting -/

/-- Round `num / den` to the nearest integer, ties to even (the floats of
    the source are modelled as exact rationals). -/
def roundHalfEven (num den : Nat) : Nat :=
  let q := num / den
  let r := num % den
  if 2 * r < den then q
  else if den < 2 * r then q + 1
  else if q % 2 = 0 then q else q + 1

def pad2 (n : Nat) : String := if n < 10 then "0" ++ toString n else toString n

/-- `f"${v:.2f}"` for a price held in cents. -/
def fmtMoney (cents : Nat) : String :=
  "$" ++ toString (cents / 100) ++ "." ++ pad2 (cents % 100)

/-- `f"{((o-s)/o*100):.1f}%"` for cents `o > 0`. -/
def fmtPercent1 (o s : Nat) : String :=
  let t := roundHalfEven ((o - s) * 1000) o
  toString (t / 10) ++ "." ++ toString (t % 10) ++ "%"

def calculate_discount : Option Nat → Option Nat → String
  | some o, some s => if 0 < s && s < o then fmtPercent1 o s else "N/A"
  | _, _ => "N/A"

/-! ### `is_invalid_product_name` -/

def price_text_indicators : List String :=
  ["original price:", "sale price:", "regular price:", "was:", "now:", "price:"]

/-- The characters replaced by spaces before word analysis; the euro and
    pound entries are the multi-character mojibake literals of the source. -/
def stripCharsList : List String :=
  ["$", euroMoji, poundMoji, ",", ".", ":", "-",
   "0", "1", "2", "3", "4", "5", "6", "7", "8", "9"]

def price_words : List String :=
  ["original", "price", "sale", "was", "now", "regular", "save", "off"]

def is_invalid_product_name (product_name : String) : Bool :=
  if product_name = "" then true
  else
    let name_lower := pyStrip (pyLower product_name)
    if price_text_indicators.any (fun ind => pyStartsWith name_lower ind) then true
    else if pyStartsWith (pyStrip product_name) ("$") then true
    else
      let name_stripped := stripCharsList.foldl (fun s c => pyReplace s c (" ")) name_lower
      let words := (pySplitWS name_stripped).filter (fun w => 2 < pyLen w)
      let tooPricey :=
        if words.isEmpty then false
        else
          let pwc := (words.filter (fun w => price_words.contains w)).length
          decide (3 * words.length < 5 * pwc)
      if tooPricey then true
      else
        let alpha := (product_name.data.filter isAlphaChar).length
        let total := product_name.data.length
        decide (0 < total) && decide (10 * alpha < 3 * total)

/-! ### `is_non_footwear_item` -/

def exclude_keywords : List String :=
  ["gift", "gift card", "giftcard", "gift certificate",
   "e-gift", "egift", "gift voucher", "store credit",
   "shopping card", "prepaid card", "digital gift", "gift pack",
   "care kit", "cleaning kit", "laces only", "insole only",
   "accessory kit", "water repellent", "shoe cleaner",
   "protective spray", "subscription", "membership"]

def navigation_keywords : List String :=
  ["sign in", "sign up", "log in", "login", "register",
   "create account", "my account", "account", "cart", "checkout",
   "wishlist", "favorites", "did you mean", "search results",
   "filter by", "sort by", "product type", "category", "breadcrumb",
   "menu", "navigation", "back to", "view all", "shop now",
   "learn more", "find out", "discover", "explore",
   "add a promotion", "add promotion", "add discount",
   "promo code", "coupon code", "subscribe", "newsletter",
   "email signup", "gifts by price", "gifts under", "price range",
   "shop by price", "$85 and up", "$75+", "sale items",
   "clearance items", "new arrivals", "best sellers", "top rated",
   "customer service", "help center", "contact us",
   "store locator", "find a store",
   "keep up with", "follow us", "stay connected", "join us",
   "connect with", "social media", "follow along"]

def promo_patterns_words : List String :=
  ["free", "save", "off", "discount", "promotion", "offer",
   "deal", "special", "sale", "clearance", "collection"]

def promotional_exact : List String :=
  ["keep up with us", "20% off boots", "30% off boots",
   "40% off boots", "50% off boots", "x collection"]

def question_patterns : List String :=
  ["?", "did you", "do you", "how to", "why", "what is", "sign up", "click here"]

/-- `re.search(r'\d+%\s*off', s)`. -/
def percentOffSearch (s : List Char) : Bool :=
  searchP (digits1P (litP ("%".data) (spacesP (litP ("off".data) trueP)))) s

/-- `re.match(r'^\d+%?\s+off\s+\w+', s)` (anchored at the start). -/
def pctOffWordMatch (s : List Char) : Bool :=
  digits1P (optCharP '%' (spaces1P (litP ("off".data)
    (spaces1P (fun r => !(r.takeWhile isWordChar).isEmpty))))) s

def shortShoeWords : List String :=
  ["boot", "shoe", "sneaker", "sandal", "slipper", "clog"]

def footwear_indicators : List String :=
  ["boot", "shoe", "sneaker", "sandal", "slipper", "oxford", "loafer", "clog",
   "runner", "trainer", "heel", "wedge", "moccasin"]

def capsShoeWords : List String := ["boot", "shoe", "sneaker", "work", "steel", "toe"]

def is_non_footwear_item (product_name : String) : Bool :=
  if product_name = "" then false
  else
    let nl := pyLower product_name
    if promotional_exact.any (fun p => pyContains nl p) then true
    else if pyContains nl (" x ") && pyContains nl ("collection") then true
    else if percentOffSearch nl.data then true
    else if pctOffWordMatch nl.data then true
    else
      let word_count := (pySplitWS product_name).length
      let shortPromo :=
        if word_count ≤ 8 then
          if promo_patterns_words.any (fun p => pyContains nl p) then
            if !(shortShoeWords.any (fun w => pyContains nl w)) then true
            else percentOffSearch nl.data
          else false
        else false
      if shortPromo then true
      else if (exclude_keywords ++ navigation_keywords).any (fun k => pyContains nl k) then true
      else if pyLen (pyStrip product_name) < 8 then true
      else if word_count ≤ 3 &&
              !(footwear_indicators.any (fun w => pyContains nl w)) then true
      else if pyIsUpper product_name && word_count ≤ 6 &&
              !(capsShoeWords.any (fun w => pyContains nl w)) then true
      else question_patterns.any (fun p => pyContains nl p)

/-! ### `extract_site_promotions` -/

/-- Keep the first occurrence of each string (models Python `set` contents;
    set iteration order is unspecified in Python, fixed here as
    first-occurrence order — no claim depends on it).  Structural recursion
    on a fuel argument; every step consumes the head, so fuel `l.length`
    never runs out. -/
def dedupFirstGo : Nat → List String → List String
  | _, [] => []
  | 0, l => l
  | fuel + 1, x :: xs => x :: dedupFirstGo fuel (xs.filter (fun y => y ≠ x))

def dedupFirst (l : List String) : List String := dedupFirstGo l.length l

/-- Strict lexicographic (code-point) comparison, as Python `<` on `str`. -/
def lexLtL : List Char → List Char → Bool
  | [], [] => false
  | [], _ :: _ => true
  | _ :: _, [] => false
  | a :: as, b :: bs => if a < b then true else if b < a then false else lexLtL as bs

def insertDescLex (x : String) : List String → List String
  | [] => [x]
  | y :: ys => if lexLtL x.data y.data then y :: insertDescLex x ys else x :: y :: ys

/-- `sorted(·, reverse=True)` on distinct strings. -/
def sortDescLex (l : List String) : List String := l.foldr insertDescLex []

/-- `free\s+shipping[^.!?\n]{0,50}\$\s*(\d+)` at a position (greedy gap with
    backtracking to the rightmost reachable dollar sign). -/
def freeShipAt (s : List Char) : Option (List Char × List Char) :=
  if isPrefixL ("free".data) s then
    let s1 := s.drop 4
    let sp := (s1.takeWhile isSpaceChar).length
    if 1 ≤ sp && isPrefixL ("shipping".data) (s1.drop sp) then
      let s3 := (s1.drop sp).drop 8
      let window := (s3.takeWhile
        (fun c => !(c == '.' || c == '!' || c == '?' || c == '\n'))).take 50
      (List.range (window.length + 1)).findSome? fun i =>
        match s3.drop (window.length - i) with
        | '$' :: r =>
          let r2 := dropSpacesL r
          let ds := r2.takeWhile isDigitChar
          if 1 ≤ ds.length then some (ds, r2.drop ds.length) else none
        | _ => none
    else none
  else none

/-- `(\d+)%\s*off` at a position. -/
def percentOffAt (s : List Char) : Option (List Char × List Char) :=
  let ds := s.takeWhile isDigitChar
  if 1 ≤ ds.length then
    match s.drop ds.length with
    | '%' :: r =>
      let r2 := dropSpacesL r
      if isPrefixL ("off".data) r2 then some (ds, r2.drop 3) else none
    | _ => none
  else none

/-- `\bword\b` scan with the previous character carried along. -/
def wbGo (word : List Char) : Option Char → List Char → Bool
  | _, [] => false
  | prev, c :: cs =>
    ((match prev with | none => true | some p => !isWordChar p) &&
      isPrefixL word (c :: cs) &&
      (match (c :: cs).drop word.length with
       | [] => true
       | r :: _ => !isWordChar r))
    || wbGo word (some c) cs

/-- `\bword\b` search (both neighbours must not be word characters), for a
    nonempty word of word characters. -/
def wordBoundarySearch (word : List Char) (s : List Char) : Bool :=
  wbGo word none s

/-- `select\s+styles` at a position. -/
def selectStylesP : List Char → Bool :=
  litP ("select".data) (spaces1P (litP ("styles".data) trueP))

/-- The percent strings matched by `(\d+)%\s*off` over the lowered document. -/
def pctMatchStrings (html_content : String) : List String :=
  (findAllM percentOffAt (pyLower html_content).data).map (fun l => (⟨l⟩ : String))

/-- The first-3 (by descending lexicographic order) distinct percent strings. -/
def topPcts (html_content : String) : List String :=
  (sortDescLex (dedupFirst (pctMatchStrings html_content))).take 3

/-- Pattern-1 entries: one `"Free Shipping: $N+"` per distinct threshold. -/
def freeShipEntries (html_content : String) : List String :=
  (dedupFirst ((findAllM freeShipAt (pyLower html_content).data).map
    (fun l => (⟨l⟩ : String)))).map (fun a => "Free Shipping: $" ++ a ++ "+")

/-- Pattern-2 entries: the top-3 percent strings, each as `"N% Off"`. -/
def pctEntries (html_content : String) : List String :=
  if (pctMatchStrings html_content).isEmpty then []
  else (topPcts html_content).map (fun p => p ++ "% Off")

def clearanceEntries (html_content : String) : List String :=
  if wordBoundarySearch ("clearance".data) (pyLower html_content).data then
    ["Clearance Available"]
  else []

def selectStylesEntries (html_content : String) : List String :=
  if searchP selectStylesP (pyLower html_content).data then
    ["Sale on Select Styles"]
  else []

def extract_site_promotions (html_content : String) : List String :=
  (freeShipEntries html_content ++ pctEntries html_content ++
    clearanceEntries html_content ++ selectStylesEntries html_content).take 10

/-! ### URL helpers (`get_domain`, base URL, `urljoin`) -/

/-- Split around the first occurrence of `pat` (before, after). -/
def splitOnFirst : List Char → List Char → Option (List Char × List Char)
  | s, pat =>
    if isPrefixL pat s then some ([], s.drop pat.length)
    else
      match s with
      | [] => none
      | c :: cs =>
        match splitOnFirst cs pat with
        | some (a, b) => some (c :: a, b)
        | none => none

/-- Simplified model of `urllib.parse.urlparse`, restricted to the scheme
    and netloc of `scheme://host/...` URLs; both components are empty when
    the text contains no "://" (as for relative references). -/
def urlSchemeNetloc (url : String) : String × String :=
  match splitOnFirst url.data ("://".data) with
  | some (sch, rest) =>
    let netloc := rest.takeWhile (fun c => !(c == '/' || c == '?' || c == '#'))
    (⟨sch⟩, ⟨netloc⟩)
  | none => ("", "")

def get_domain (url : String) : String :=
  let d := pyLower (urlSchemeNetloc url).2
  if pyStartsWith d ("www.") then ⟨d.data.drop 4⟩ else d

/-- Simplified model of `urllib.parse.urljoin`, adequate for the argument
    shapes the engine produces (base is "" or "scheme://netloc"; url is
    absolute, protocol-relative, root-relative or relative). -/
def urljoin (base url : String) : String :=
  if url = "" then base
  else if (splitOnFirst url.data ("://".data)).isSome then url
  else if base = "" then url
  else
    let sn := urlSchemeNetloc base
    let origin := sn.1 ++ "://" ++ sn.2
    if pyStartsWith url ("//") then sn.1 ++ ":" ++ url
    else if pyStartsWith url ("/") then origin ++ url
    else origin ++ "/" ++ url

/-! ### The HTML tree (BeautifulSoup model)

The soup is a tree of element and text nodes.  bs4 compares tags
structurally (`Tag.__eq__` is name + attrs + contents), traverses in
pre-order, and `find_all` never returns the element it was called on. -/

inductive Node where
  | elem (tag : String) (attrs : List (String × String)) (children : List Node)
  | text (s : String)
deriving Repr

mutual

/-- Structural equality, as bs4 `Tag.__eq__` / `NavigableString.__eq__`. -/
def nodeEq : Node → Node → Bool
  | .text a, .text b => a == b
  | .elem t1 a1 c1, .elem t2 a2 c2 => t1 == t2 && a1 == a2 && nodeEqList c1 c2
  | _, _ => false

def nodeEqList : List Node → List Node → Bool
  | [], [] => true
  | a :: as, b :: bs => nodeEq a b && nodeEqList as bs
  | _, _ => false

end

def Node.tag : Node → String
  | .elem t _ _ => t
  | .text _ => ""

def Node.attrsList : Node → List (String × String)
  | .elem _ a _ => a
  | .text _ => []

def Node.attr? (n : Node) (k : String) : Option String :=
  (n.attrsList.find? (fun p => p.1 == k)).map (·.2)

/-- `element.get(k, '')`. -/
def Node.attrD (n : Node) (k : String) : String := (n.attr? k).getD ""

def Node.hasAttr (n : Node) (k : String) : Bool := (n.attr? k).isSome

/-- bs4 splits the `class` attribute into a token list. -/
def Node.classes (n : Node) : List String := pySplitWS (n.attrD "class")

def joinSp : List String → String
  | [] => ""
  | [x] => x
  | x :: xs => x ++ " " ++ joinSp xs

/-- `' '.join(element.get('class', []))`. -/
def Node.classJoined (n : Node) : String := joinSp n.classes

mutual

/-- The `NavigableString`s of the subtree, in document order. -/
def Node.textsL : Node → List (List Char)
  | .text s => [s.data]
  | .elem _ _ cs => textsListL cs

def textsListL : List Node → List (List Char)
  | [] => []
  | n :: ns => Node.textsL n ++ textsListL ns

end

/-- `get_text()`. -/
def Node.getText (n : Node) : String := ⟨n.textsL.flatten⟩

/-- `get_text(strip=True)`. -/
def Node.getTextStrip (n : Node) : String := ⟨(n.textsL.map stripL).flatten⟩

/-- `get_text(separator=' ', strip=True)`. -/
def Node.getTextSepStrip (n : Node) : String :=
  joinSp (((n.textsL.map stripL).filter (fun l => !l.isEmpty)).map (fun l => (⟨l⟩ : String)))

mutual

/-- Pre-order list of the element itself and its element descendants. -/
def subtreeElems : Node → List Node
  | .text _ => []
  | .elem t a cs => .elem t a cs :: subtreeElemsList cs

def subtreeElemsList : List Node → List Node
  | [] => []
  | n :: ns => subtreeElems n ++ subtreeElemsList ns

end

/-- `container.find_all(...)` search space: element descendants, pre-order,
    excluding the container itself. -/
def Node.descElems : Node → List Node
  | .text _ => []
  | .elem _ _ cs => subtreeElemsList cs

mutual

/-- Pre-order element descendants paired with their parent element. -/
def subtreeElemsWP (parent : Node) : Node → List (Node × Node)
  | .text _ => []
  | .elem t a cs => (.elem t a cs, parent) :: subtreeElemsListWP (.elem t a cs) cs

def subtreeElemsListWP (parent : Node) : List Node → List (Node × Node)
  | [] => []
  | n :: ns => subtreeElemsWP parent n ++ subtreeElemsListWP parent ns

end

def Node.descElemsWP (n : Node) : List (Node × Node) :=
  match n with
  | .text _ => []
  | .elem _ _ cs => subtreeElemsListWP n cs

/-- The document: bs4 wraps the parsed roots in a `[document]` object that
    is the parent of every root element. -/
def mkDoc (roots : List Node) : Node := .elem "[document]" [] roots

def isAnchorWithHref (e : Node) : Bool := e.tag == "a" && e.hasAttr "href"

/-! ### `score_as_product_container` -/

def product_keywords : List String := ["product", "item", "card", "tile"]

def containerTags : List String := ["div", "article", "li", "section", "a"]

def currencyInText (text : String) : Bool :=
  pyContains text ("$") || pyContains text euroMoji ||
    pyContains text poundMoji || pyContains text ("USD")

def score_as_product_container (element : Node) : Nat :=
  if !(containerTags.contains element.tag) then 0
  else
    let classes := pyLower element.classJoined
    let elem_id := pyLower (element.attrD "id")
    let data_attrs := pyLower (joinSp
      ((element.attrsList.filter (fun p => pyStartsWith p.1 ("data-"))).map (·.2)))
    let kwScore := product_keywords.foldl
      (fun acc kw =>
        acc + (if pyContains classes kw then 3 else 0)
            + (if pyContains elem_id kw then 2 else 0)
            + (if pyContains data_attrs kw then 2 else 0)) 0
    let aScore := if element.descElems.any isAnchorWithHref then 2 else 0
    let imgScore := if element.descElems.any (fun d => d.tag == "img") then 1 else 0
    let text := element.getText
    let curScore := if currencyInText text then 3 else 0
    let lenScore := if 5 < pyLen (pyStrip text) then 1 else 0
    kwScore + aScore + imgScore + curScore + lenScore

/-! ### `find_product_name` -/

/-- `∃` split of the input into a newline-free gap followed by `p2`
    (the `.*` of the class regexes). -/
def gapTHEN (p2 : List Char) : List Char → Bool
  | [] => isPrefixL p2 []
  | c :: cs => isPrefixL p2 (c :: cs) || (c != '\n' && gapTHEN p2 cs)

/-- `re.search(p1 + '.*' + p2, s)`. -/
def dotStarSearch (p1 p2 : List Char) (s : List Char) : Bool :=
  s.tails.any fun t => isPrefixL p1 t && gapTHEN p2 (t.drop p1.length)

/-- `product.*name|item.*name|card.*title` on the lowered joined class
    string (bs4 tries each class token and the joined string; for these
    patterns that is equivalent to searching the joined string). -/
def nameClassRe1 (s : String) : Bool :=
  dotStarSearch ("product".data) ("name".data) s.data ||
  dotStarSearch ("item".data) ("name".data) s.data ||
  dotStarSearch ("card".data) ("title".data) s.data

/-- `product.*title|item.*title`, same convention. -/
def nameClassRe2 (s : String) : Bool :=
  dotStarSearch ("product".data) ("title".data) s.data ||
  dotStarSearch ("item".data) ("title".data) s.data

/-- `re.search(r'[a-zA-Z]{3,}', s)`. -/
def alpha3Search (s : List Char) : Bool :=
  s.tails.any fun t => 3 ≤ (t.takeWhile isAlphaChar).length

def headerNoise : List String := ["cart", "menu", "sign in", "account"]

def linkNoise : List String := ["view", "shop", "cart", "wishlist"]

def find_product_name (container : Node) : Option String :=
  let byClass := fun (re : String → Bool) =>
    (container.descElems.filter
      (fun e => e.hasAttr "class" && re (pyLower e.classJoined))).findSome? fun e =>
        let t := e.getTextStrip
        if 10 ≤ pyLen t && pyLen t ≤ 250 then some t else none
  match byClass nameClassRe1 with
  | some t => some t
  | none =>
  match byClass nameClassRe2 with
  | some t => some t
  | none =>
  match ["h1", "h2", "h3", "h4", "h5"].findSome? (fun tg =>
    (container.descElems.filter (fun e => e.tag == tg)).findSome? fun e =>
      let t := e.getTextStrip
      if 10 ≤ pyLen t && pyLen t ≤ 250 &&
         !(headerNoise.any (fun w => pyContains (pyLower t) w)) then some t
      else none) with
  | some t => some t
  | none =>
  match (container.descElems.filter isAnchorWithHref).findSome? (fun e =>
    let t := e.getTextStrip
    if 10 ≤ pyLen t && pyLen t ≤ 250 &&
       !(linkNoise.any (fun w => pyContains (pyLower t) w)) then some t
    else none) with
  | some t => some t
  | none =>
  ["span", "div", "p"].findSome? fun tg =>
    (container.descElems.filter (fun e => e.tag == tg)).findSome? fun e =>
      let t := e.getTextStrip
      if 15 ≤ pyLen t && pyLen t ≤ 200 && alpha3Search t.data then some t
      else none

/-! ### `find_product_link` -/

def linkSkipWords : List String :=
  ["cart", "checkout", "account", "login", "javascript:", "#"]

def productPathMarkers : List String :=
  ["/product/", "/p/", "/item/", "/dp/", ".html",
   "-shoe", "-boot", "-sneaker", "/men/", "/women/"]

/-- `href` is on the skip list. -/
def hrefSkipped (link : Node) : Bool :=
  linkSkipWords.any (fun w => pyContains (pyLower (link.attrD "href")) w)

/-- One step of the best-link fold (`best_link`/`best_score` state). -/
def linkStep (st : Option String × Nat) (link : Node) : Option String × Nat :=
  let href := link.attrD "href"
  let text := link.getTextStrip
  if hrefSkipped link then st
  else
    let score :=
      (if productPathMarkers.any (fun p => pyContains (pyLower href) p) then 3 else 0)
      + (if 5 ≤ pyLen text && pyLen text ≤ 200 then 1 else 0)
    if st.2 < score then (some href, score) else st

def find_product_link (container : Node) (base_url : String) : Option String :=
  let links := container.descElems.filter isAnchorWithHref
  let best := links.foldl linkStep (none, 0)
  match best.1 with
  | some b => some (urljoin base_url b)
  | none =>
    match links with
    | [] => none
    | l :: _ => some (urljoin base_url (l.attrD "href"))

/-! ### `find_prices_bulletproof` -/

def strikethrough_classes : List String :=
  ["strike", "strikethrough", "was-price", "original-price",
   "regular-price", "compare-at", "msrp", "list-price"]

def price_classes : List String :=
  ["price", "cost", "amount", "pricing", "sale", "current", "now"]

def hasClassContaining (e : Node) (cls : String) : Bool :=
  e.hasAttr "class" && pyContains (pyLower e.classJoined) cls

/-- Step 1 collection: `del`/`s`/`strike` tags, inline `line-through`
    styles, then each strikethrough class pattern in turn. -/
def strikeElems (container : Node) : List Node :=
  container.descElems.filter (fun e => ["del", "s", "strike"].contains e.tag)
  ++ container.descElems.filter
      (fun e => e.hasAttr "style" &&
        pyContains (pyLower (e.attrD "style")) ("line-through"))
  ++ strikethrough_classes.flatMap (fun cls =>
      container.descElems.filter (fun e => hasClassContaining e cls))

/-- First strikethrough element with an extractable price. -/
def strikeOriginal (container : Node) : Option Nat :=
  (strikeElems container).findSome? fun e => extract_price_bulletproof e.getText

def method3Tags : List String := ["span", "div", "p", "strong", "b"]

/-- Step 2 collection: price-class elements, `data-*-price` carriers, then
    currency-bearing `span`/`div`/`p`/`strong`/`b` elements not already
    present (bs4 `in` is structural equality). -/
def priceCandidates (container : Node) : List (Node × Node) :=
  let wp := container.descElemsWP
  let fromClasses := price_classes.flatMap (fun cls =>
    wp.filter (fun ep => hasClassContaining ep.1 cls))
  let fromData :=
    wp.filter (fun ep => ep.1.hasAttr "data-price")
    ++ wp.filter (fun ep => ep.1.hasAttr "data-product-price")
    ++ wp.filter (fun ep => ep.1.hasAttr "data-test-price")
  let base := fromClasses ++ fromData
  method3Tags.foldl
    (fun acc tg =>
      (wp.filter (fun ep => ep.1.tag == tg)).foldl
        (fun acc ep =>
          let text := ep.1.getTextStrip
          if is_promotional_text text then acc
          else if currencyInText text && pyLen text < 100 then
            if acc.any (fun e2 => nodeEq e2.1 ep.1) then acc else acc ++ [ep]
          else acc)
        acc)
    base

/-- Step 2 extraction: all deduplicated prices from non-strikethrough
    candidates. -/
def collectPrices (container : Node) : List Nat :=
  let strikes := strikeElems container
  (priceCandidates container).foldl
    (fun all ep =>
      if strikes.any (nodeEq ep.1) then all
      else if strikes.any (nodeEq ep.2) then all
      else if ["del", "s", "strike"].contains ep.1.tag then all
      else if pyContains (pyLower (ep.1.attrD "style")) ("line-through") then all
      else
        let t := ep.1.getTextStrip
        if is_promotional_text t then all
        else
          match extract_price_bulletproof t with
          | some p => if all.contains p then all else all ++ [p]
          | none => all)
    []

/-- `list.sort()` / `sorted(list)` (ascending, stable). -/
def pySort (l : List Nat) : List Nat := List.insertionSort (· ≤ ·) l

/-- Step 3 resolution.  Returns `(original_price, sale_price)`. -/
def find_prices_bulletproof (container : Node) : Option Nat × Option Nat :=
  let all_prices := collectPrices container
  match strikeOriginal container with
  | some o =>
    match all_prices with
    | [] => (none, some o)
    | p :: ps => (some o, some (ps.foldl Nat.min p))
  | none =>
    if 2 ≤ all_prices.length then
      let sorted := pySort all_prices
      (sorted.getLast?, sorted.head?)
    else
      match all_prices with
      | [p] => (none, some p)
      | _ => (none, none)

/-! ### Product records and the extraction orchestrator -/

structure ProductRecord where
  productName : String
  productURL : String
  originalPrice : String
  salePrice : String
  discountPct : String
  brand : String
  category : String
deriving Repr, DecidableEq

/-- The per-container data gathered by the main loop before the record
    dictionary is formatted. -/
structure RawProduct where
  name : String
  link : Option String
  original? : Option Nat
  sale? : Option Nat
deriving Repr, DecidableEq

/-- `name.lower().strip()[:100]`, the deduplication key. -/
def nameKey (name : String) : String := pyTake (pyStrip (pyLower name)) 100

/-- Scored eligible elements (document order), keeping scores `≥ 5`. -/
def scoredCandidates (doc : Node) : List (Nat × Node) :=
  ((doc.descElems.filter (fun e => containerTags.contains e.tag)).map
    (fun e => (score_as_product_container e, e))).filter (fun p => 5 ≤ p.1)

def insertDescScore (x : Nat × Node) : List (Nat × Node) → List (Nat × Node)
  | [] => [x]
  | y :: ys => if x.1 < y.1 then y :: insertDescScore x ys else x :: y :: ys

/-- Python's stable `sort(reverse=True, key=score)`. -/
def sortDescScore (l : List (Nat × Node)) : List (Nat × Node) := l.foldr insertDescScore []

/-- Top 300 containers in processing order (score descending, ties in
    document order). -/
def product_containers (doc : Node) : List Node :=
  ((sortDescScore (scoredCandidates doc)).take 300).map (·.2)

/-- Name extraction and the three validity filters of the main loop. -/
def containerName (container : Node) : Option String :=
  match find_product_name container with
  | none => none
  | some name =>
    if pyLen name < 5 then none
    else if is_invalid_product_name name then none
    else if is_non_footwear_item name then none
    else some name

/-- One container's full field extraction (no deduplication).  The source
    checks the dedup key before calling the (pure, side-effect-free) link
    and price locators; hoisting those calls here is
    behaviour-preserving. -/
def processContainer (base_url : String) (container : Node) : Option RawProduct :=
  (containerName container).map fun name =>
    { name := name
      link := find_product_link container base_url
      original? := (find_prices_bulletproof container).1
      sale? := (find_prices_bulletproof container).2 }

/-- The main loop with its `seen_names` set. -/
def extractLoop (base_url : String) : List Node → List String → List RawProduct
  | [], _ => []
  | c :: cs, seen =>
    match processContainer base_url c with
    | none => extractLoop base_url cs seen
    | some raw =>
      let key := nameKey raw.name
      if seen.contains key then extractLoop base_url cs seen
      else raw :: extractLoop base_url cs (key :: seen)

def extract_raw_products (doc : Node) (base_url : String) : List RawProduct :=
  extractLoop base_url (product_containers doc) []

/-- The record dictionary of the main loop (`0.0` prices are falsy in
    Python, hence the explicit zero checks). -/
def buildRecord (domain : String) (raw : RawProduct) : ProductRecord :=
  { productName := raw.name
    productURL :=
      match raw.link with
      | some l => if l = "" then "N/A" else l
      | none => "N/A"
    originalPrice :=
      match raw.original? with
      | some o => if o = 0 then "N/A" else fmtMoney o
      | none => "N/A"
    salePrice :=
      match raw.sale? with
      | some s => if s = 0 then "N/A" else fmtMoney s
      | none => "N/A"
    discountPct := calculate_discount raw.original? raw.sale?
    brand := if domain ≠ "" then pyTitle (((pySplitOn domain '.').head?).getD "") else "N/A"
    category := "Footwear" }

/-! ### The fallback parser (`extract_products_from_price_patterns`) -/

/-- `(\d+\.\d{2})\s*USD` at a position. -/
def fb1At (s : List Char) : Option (List Char × List Char) :=
  let ds := s.takeWhile isDigitChar
  if 1 ≤ ds.length then
    match dec2 (s.drop ds.length) with
    | some (d, r) =>
      match dropSpacesL r with
      | 'U' :: 'S' :: 'D' :: r2 => some (ds ++ d, r2)
      | _ => none
    | none => none
  else none

/-- `\$\s*(\d+\.\d{2})` at a position. -/
def fb2At : List Char → Option (List Char × List Char)
  | '$' :: s =>
    let s1 := dropSpacesL s
    let ds := s1.takeWhile isDigitChar
    if 1 ≤ ds.length then
      (dec2 (s1.drop ds.length)).map (fun dr => (ds ++ dr.1, dr.2))
    else none
  | _ => none

/-- `(\d{1,3},\d{3}\.\d{2})` at a position (greedy `\d{1,3}` with
    backtracking). -/
def fb3At (s : List Char) : Option (List Char × List Char) :=
  let run := min (s.takeWhile isDigitChar).length 3
  (List.range run).findSome? fun i =>
    let k := run - i
    match s.drop k with
    | ',' :: r1 =>
      if 3 ≤ (r1.takeWhile isDigitChar).length then
        match dec2 (r1.drop 3) with
        | some (d, r2) => some (s.take k ++ [','] ++ r1.take 3 ++ d, r2)
        | none => none
      else none
    | _ => none

/-- The fallback price collection over a container text: the three patterns
    in order, each value kept only when `5 < price < 2000` (strict, unlike
    the `5 <= price <= 2000` of `extract_price_bulletproof`); no
    deduplication. -/
def collectFallbackPrices (text : String) : List Nat :=
  [fb1At, fb2At, fb3At].foldl
    (fun acc pat =>
      (findAllM pat text.data).foldl
        (fun acc g =>
          let p := centsOfGroup g
          if 500 < p && p < 200000 then acc ++ [p] else acc)
        acc)
    []

/-- `re.match(r'^\$?\d+\.?\d*', s)` succeeds (optional dollar sign, then at
    least one digit). -/
def fbNumericMatch : List Char → Bool
  | '$' :: c :: _ => isDigitChar c
  | '$' :: [] => false
  | c :: _ => isDigitChar c
  | [] => false

/-- Fallback name, attempt 1: the anchor's own text. -/
def fbNameFromText (link : Node) : Option String :=
  let lt := link.getTextStrip
  if lt ≠ "" && 5 < pyLen lt && pyLen lt < 200 && !fbNumericMatch lt.data then some lt
  else none

/-- Fallback name, attempt 2: last meaningful URL path segment (the loop
    keeps overwriting and only breaks on a title longer than 10). -/
def pathNameGo : List String → Option String → Option String
  | [], acc => acc
  | p :: ps, acc =>
    if p ≠ "" && 3 < pyLen p && !(pyStartsWith p ("?")) then
      let n := pyTitle (pyReplace (pyReplace p ("-") (" ")) ("_") (" "))
      if 10 < pyLen n then some n else pathNameGo ps (some n)
    else pathNameGo ps acc

def pathName (href : String) : Option String :=
  pathNameGo ((pySplitOn (pyRstripSlash href) '/').reverse) none

/-- Fallback name, attempt 3: first `h2`/`h3`/`h4` heading text. -/
def headingName (container : Node) : Option String :=
  ["h2", "h3", "h4"].findSome? fun tg =>
    match (container.descElems.filter (fun e => e.tag == tg)).head? with
    | some h =>
      let t := h.getTextStrip
      if t ≠ "" && 5 < pyLen t && pyLen t < 100 then some t else none
    | none => none

/-- The fallback price list for one anchor's parent container. -/
def fbPrices (container : Node) : List Nat :=
  collectFallbackPrices container.getTextSepStrip

/-- `sale_price` of the fallback path. -/
def fbSale (container : Node) : Nat :=
  if 2 ≤ (fbPrices container).length then ((pySort (fbPrices container)).head?).getD 0
  else ((fbPrices container).head?).getD 0

/-- `original_price` of the fallback path. -/
def fbOriginal? (container : Node) : Option Nat :=
  if 2 ≤ (fbPrices container).length then (pySort (fbPrices container)).getLast? else none

def fallbackRecord (base_url : String) (link container : Node) : ProductRecord :=
  let href := link.attrD "href"
  let sale := fbSale container
  let original? : Option Nat := fbOriginal? container
  let name1 :=
    match fbNameFromText link with
    | some n => some n
    | none => if href ≠ "" then pathName href else none
  let name2 :=
    match name1 with
    | some n => some n
    | none => headingName container
  let name :=
    match name2 with
    | some n =>
      if pyLen n < 5 then
        let domain := get_domain base_url
        let brand := if domain ≠ "" then pyUpper (((pySplitOn domain '.').head?).getD "") else "Product"
        brand ++ " Footwear - " ++ fmtMoney sale
      else n
    | none =>
      let domain := get_domain base_url
      let brand := if domain ≠ "" then pyUpper (((pySplitOn domain '.').head?).getD "") else "Product"
      brand ++ " Footwear - " ++ fmtMoney sale
  let full_link := if href ≠ "" then urljoin base_url href else "N/A"
  let domain := get_domain base_url
  { productName := name
    productURL := full_link
    originalPrice :=
      match original? with
      | some o => if o = 0 then "N/A" else fmtMoney o
      | none => "N/A"
    salePrice := fmtMoney sale
    discountPct := calculate_discount original? (some sale)
    brand := if domain ≠ "" then pyTitle (((pySplitOn domain '.').head?).getD "") else "N/A"
    category := "Footwear" }

def fallbackLoop (base_url : String) :
    List (Node × Node) → List (List Nat) → List ProductRecord
  | [], _ => []
  | ep :: rest, seen =>
    if hrefSkipped ep.1 then
      fallbackLoop base_url rest seen
    else
      let prices := fbPrices ep.2
      if prices.isEmpty then fallbackLoop base_url rest seen
      else
        let key := pySort prices
        if seen.contains key then fallbackLoop base_url rest seen
        else
          fallbackRecord base_url ep.1 ep.2 :: fallbackLoop base_url rest (key :: seen)

/-- The fallback parser: every anchor (with its parent as container),
    deduplicated on the sorted price tuple. -/
def extract_products_from_price_patterns (doc : Node) (base_url : String) :
    List ProductRecord :=
  fallbackLoop base_url (doc.descElemsWP.filter (fun ep => isAnchorWithHref ep.1)) []

/-! ### `parse_products_universal` -/

/-- `f"{parsed.scheme}://{parsed.netloc}"` when a source URL is given. -/
def baseUrlOf (source_url : String) : String :=
  if source_url ≠ "" then
    let sn := urlSchemeNetloc source_url
    sn.1 ++ "://" ++ sn.2
  else ""

def parse_products_universal (doc : Node) (html_content source_url : String) :
    List ProductRecord × List String :=
  let domain := get_domain source_url
  let base_url := baseUrlOf source_url
  let raws := extract_raw_products doc base_url
  let products :=
    if raws.isEmpty then
      extract_products_from_price_patterns doc
        (if base_url ≠ "" then base_url else source_url)
    else raws.map (buildRecord domain)
  (products, extract_site_promotions html_content)

/-! ### Helper definitions used by the claim statements -/

/-- The main loop's deduplication as a standalone pass: keep the first
    record for each normalized name key.  Used to state that the
    interleaved loop factors into per-container extraction followed by
    first-wins deduplication. -/
def dedupByKey : List RawProduct → List String → List RawProduct
  | [], _ => []
  | r :: rs, seen =>
    let k := nameKey r.name
    if seen.contains k then dedupByKey rs seen
    else r :: dedupByKey rs (k :: seen)

/-- Among the four shapes of emitted promotion strings
    (`"Free Shipping: $N+"`, `"N% Off"`, `"Clearance Available"`,
    `"Sale on Select Styles"`) exactly the percent-off ones end with the
    letter 'f', so the final character identifies them. -/
def isPercentEntry (s : String) : Bool := s.data.getLast? == some 'f'

/-! ### Concrete fixtures for the claim theorems -/

def urlShop : String := "https://www.example.com/shop"

/-- A product card whose strikethrough price ($80.00) is lower than its
    displayed price ($90.00). -/
def contAlpine : Node :=
  .elem "div" [("class", "product")]
    [.elem "del" [] [.text "$80.00"],
     .elem "span" [] [.text "$90.00"],
     .elem "span" [("class", "product-name")] [.text "Alpine Hiking Boot Mens"]]

def docAlpine : Node := mkDoc [contAlpine]

def htmlAlpine : String :=
  "<div class=\x22product\x22><del>$80.00</del><span>$90.00</span><span class=\x22product-name\x22>Alpine Hiking Boot Mens</span></div>"

/-- First container in document order, container score 7. -/
def contAlpha : Node :=
  .elem "div" [("class", "product")]
    [.elem "span" [("class", "product-name")] [.text "Alpha Hiking Boot Mens"],
     .elem "span" [] [.text "$50.00"]]

/-- Second container in document order, container score 13. -/
def contBravo : Node :=
  .elem "div" [("class", "product item")]
    [.elem "a" [("href", "/p/bravo")] [.elem "img" [] []],
     .elem "span" [("class", "product-name")] [.text "Bravo Hiking Boot Mens"],
     .elem "span" [] [.text "$60.00"]]

def docScan : Node := mkDoc [contAlpha, contBravo]

def htmlScan : String :=
  "<div class=\x22product\x22><span class=\x22product-name\x22>Alpha Hiking Boot Mens</span><span>$50.00</span></div><div class=\x22product item\x22><a href=\x22/p/bravo\x22><img/></a><span class=\x22product-name\x22>Bravo Hiking Boot Mens</span><span>$60.00</span></div>"

/-- A discounted product card ($120.00 struck through by price order,
    sale $89.99). -/
def contWalnut : Node :=
  .elem "div" [("class", "product")]
    [.elem "span" [("class", "product-name")] [.text "Walnut Hiking Boot Mens"],
     .elem "span" [] [.text "$89.99"],
     .elem "span" [] [.text "$120.00"]]

def docWalnut : Node := mkDoc [contWalnut]

def htmlWalnut : String :=
  "<div class=\x22product\x22><span class=\x22product-name\x22>Walnut Hiking Boot Mens</span><span>$89.99</span><span>$120.00</span></div>"

/-- Strikethrough $120 next to a plain $89.99 (spec §8 example). -/
def c2aCont : Node :=
  .elem "div" [] [.elem "del" [] [.text "$120"], .elem "span" [] [.text "$89.99"]]

/-- Only $89.99 and $120.00, no strikethrough markup (spec §8 example). -/
def c2bCont : Node :=
  .elem "div" [] [.elem "span" [] [.text "$89.99"], .elem "span" [] [.text "$120.00"]]

/-- A container whose only anchor is on the skip list. -/
def contCartOnly : Node :=
  .elem "div" [] [.elem "a" [("href", "/cart/add")] [.text "Add to cart"]]

/-! ## General lemmas -/

theorem patternLoop_eq_find? (fs : List (List Char → List Nat)) (t : List Char) :
    patternLoop fs t = (fs.flatMap (fun f => f t)).find? inRangeB := by
  induction fs with
  | nil => rfl
  | cons f fs ih =>
    simp only [patternLoop, List.flatMap_cons, List.find?_append]
    by_cases h : (f t).isEmpty
    · rw [List.isEmpty_iff] at h
      simp [h, ih]
    · simp only [h, Bool.false_eq_true, if_false]
      cases hf : (f t).find? inRangeB with
      | some p => simp [hf]
      | none => simp [hf, ih]

theorem foldl_min_le_start : ∀ (ps : List Nat) (p : Nat), ps.foldl Nat.min p ≤ p := by
  intro ps
  induction ps with
  | nil => simp
  | cons q ps ih =>
    intro p
    calc (q :: ps).foldl Nat.min p = ps.foldl Nat.min (Nat.min p q) := rfl
    _ ≤ Nat.min p q := ih _
    _ ≤ p := Nat.min_le_left _ _

theorem foldl_min_le_mem : ∀ (ps : List Nat) (p q : Nat), q ∈ ps → ps.foldl Nat.min p ≤ q := by
  intro ps
  induction ps with
  | nil => intro p q h; cases h
  | cons a ps ih =>
    intro p q h
    rcases List.mem_cons.mp h with h | h
    · subst h
      calc (q :: ps).foldl Nat.min p = ps.foldl Nat.min (Nat.min p q) := rfl
      _ ≤ Nat.min p q := foldl_min_le_start _ _
      _ ≤ q := Nat.min_le_right _ _
    · exact ih _ q h

theorem foldl_min_mem : ∀ (ps : List Nat) (p : Nat),
    ps.foldl Nat.min p = p ∨ ps.foldl Nat.min p ∈ ps := by
  intro ps
  induction ps with
  | nil => intro p; exact Or.inl rfl
  | cons a ps ih =>
    intro p
    have : (a :: ps).foldl Nat.min p = ps.foldl Nat.min (Nat.min p a) := rfl
    rw [this]
    rcases ih (Nat.min p a) with h | h
    · rw [h]
      rcases Nat.le_total p a with hpa | hap
      · exact Or.inl (by show min p a = p; omega)
      · refine Or.inr ?_
        have hmin : Nat.min p a = a := by show min p a = a; omega
        rw [hmin]
        exact List.mem_cons_self _ _
    · exact Or.inr (List.mem_cons_of_mem _ h)

theorem mem_of_head?_eq {l : List Nat} {m : Nat} (h : l.head? = some m) : m ∈ l := by
  cases l with
  | nil => cases h
  | cons a t =>
    simp only [List.head?_cons, Option.some.injEq] at h
    exact h ▸ List.mem_cons_self a t

theorem mem_of_getLast?_eq {l : List Nat} {M : Nat} (h : l.getLast? = some M) : M ∈ l := by
  rcases List.mem_getLast?_eq_getLast (show M ∈ l.getLast? from h) with ⟨hne, hM⟩
  exact hM ▸ List.getLast_mem hne

theorem pySort_perm (l : List Nat) : (pySort l).Perm l := List.perm_insertionSort _ l

theorem pySort_sorted (l : List Nat) : (pySort l).Sorted (· ≤ ·) :=
  List.sorted_insertionSort _ l

theorem mem_pySort {l : List Nat} {x : Nat} : x ∈ pySort l ↔ x ∈ l :=
  (pySort_perm l).mem_iff

theorem sorted_getLast?_max :
    ∀ (l : List Nat), l.Sorted (· ≤ ·) → ∀ M, l.getLast? = some M → ∀ p ∈ l, p ≤ M := by
  intro l
  induction l with
  | nil => intro _ M h; cases h
  | cons a t ih =>
    intro hs M hM p hp
    cases t with
    | nil =>
      simp only [List.getLast?_singleton, Option.some.injEq] at hM
      subst hM
      simp only [List.mem_singleton] at hp
      exact hp.le
    | cons b t2 =>
      rw [List.getLast?_cons_cons] at hM
      have hcons := List.sorted_cons.mp hs
      have hMt : M ∈ b :: t2 := mem_of_getLast?_eq hM
      rcases List.mem_cons.mp hp with h | h
      · subst h
        exact hcons.1 M hMt
      · exact ih hcons.2 M hM p h

theorem sorted_head?_min :
    ∀ (l : List Nat), l.Sorted (· ≤ ·) → ∀ m, l.head? = some m → ∀ p ∈ l, m ≤ p := by
  intro l hs m hm p hp
  cases l with
  | nil => cases hm
  | cons a t =>
    simp only [List.head?_cons, Option.some.injEq] at hm
    subst hm
    have hcons := List.sorted_cons.mp hs
    rcases List.mem_cons.mp hp with h | h
    · exact h ▸ Nat.le_refl _
    · exact hcons.1 p h

theorem pySort_head?_spec {l : List Nat} {m : Nat} (h : (pySort l).head? = some m) :
    m ∈ l ∧ ∀ p ∈ l, m ≤ p := by
  refine ⟨mem_pySort.mp (mem_of_head?_eq h), fun p hp => ?_⟩
  exact sorted_head?_min _ (pySort_sorted l) m h p (mem_pySort.mpr hp)

theorem pySort_getLast?_spec {l : List Nat} {M : Nat} (h : (pySort l).getLast? = some M) :
    M ∈ l ∧ ∀ p ∈ l, p ≤ M := by
  refine ⟨mem_pySort.mp (mem_of_getLast?_eq h), fun p hp => ?_⟩
  exact sorted_getLast?_max _ (pySort_sorted l) M h p (mem_pySort.mpr hp)

theorem extractLoop_eq_dedupByKey (base : String) :
    ∀ (cs : List Node) (seen : List String),
      extractLoop base cs seen = dedupByKey (cs.filterMap (processContainer base)) seen := by
  intro cs
  induction cs with
  | nil => intro seen; rfl
  | cons c cs ih =>
    intro seen
    simp only [extractLoop, List.filterMap_cons]
    cases h : processContainer base c with
    | none => exact ih seen
    | some raw =>
      simp only [dedupByKey]
      by_cases hs : seen.contains (nameKey raw.name)
      · simp only [hs, if_true]
        exact ih seen
      · simp only [hs, Bool.false_eq_true, if_false]
        rw [ih]

theorem dedupByKey_keys_fresh :
    ∀ (rs : List RawProduct) (seen : List String),
      ((dedupByKey rs seen).map (fun r => nameKey r.name)).Nodup ∧
      ∀ k ∈ (dedupByKey rs seen).map (fun r => nameKey r.name), seen.contains k = false := by
  intro rs
  induction rs with
  | nil => intro seen; exact ⟨List.nodup_nil, fun k hk => by cases hk⟩
  | cons r rs ih =>
    intro seen
    simp only [dedupByKey]
    by_cases hs : seen.contains (nameKey r.name)
    · simpa only [hs, if_true] using ih seen
    · simp only [hs, Bool.false_eq_true, if_false, List.map_cons, List.nodup_cons]
      rcases ih (nameKey r.name :: seen) with ⟨hnd, hfresh⟩
      refine ⟨⟨fun hmem => ?_, hnd⟩, fun k hk => ?_⟩
      · have := hfresh _ hmem
        simp only [List.contains_cons, beq_self_eq_true, Bool.true_or] at this
        exact absurd this (by decide)
      · rcases List.mem_cons.mp hk with h | h
        · subst h
          simpa using hs
        · have := hfresh _ h
          simp only [List.contains_cons, Bool.or_eq_false_iff] at this
          exact this.2

theorem dedupByKey_sublist :
    ∀ (rs : List RawProduct) (seen : List String), (dedupByKey rs seen).Sublist rs := by
  intro rs
  induction rs with
  | nil => intro seen; simp [dedupByKey]
  | cons r rs ih =>
    intro seen
    simp only [dedupByKey]
    by_cases hs : seen.contains (nameKey r.name)
    · simp only [hs, if_true]
      exact (ih seen).cons r
    · simp only [hs, Bool.false_eq_true, if_false]
      exact (ih (nameKey r.name :: seen)).cons₂ r

theorem processContainer_name (base : String) (c : Node) :
    (processContainer base c).map (fun r => r.name) = containerName c := by
  simp only [processContainer, Option.map_map]
  cases containerName c <;> rfl

/-- The inner fallback fold only appends values in the open range. -/
theorem fallbackInnerFold_bounds :
    ∀ (gs : List (List Char)) (acc : List Nat),
      (∀ q ∈ acc, 500 < q ∧ q < 200000) →
      ∀ p ∈ gs.foldl
          (fun acc g =>
            let v := centsOfGroup g
            if 500 < v && v < 200000 then acc ++ [v] else acc) acc,
        500 < p ∧ p < 200000 := by
  intro gs
  induction gs with
  | nil => intro acc hacc p hp; exact hacc p hp
  | cons g gs ih =>
    intro acc hacc p hp
    simp only [List.foldl_cons] at hp
    refine ih _ ?_ p hp
    by_cases hv : 500 < centsOfGroup g ∧ centsOfGroup g < 200000
    · intro q hq
      have : (if 500 < centsOfGroup g && centsOfGroup g < 200000
          then acc ++ [centsOfGroup g] else acc) = acc ++ [centsOfGroup g] := by
        simp [hv.1, hv.2]
      rw [this] at hq
      rcases List.mem_append.mp hq with h | h
      · exact hacc q h
      · simp only [List.mem_singleton] at h
        exact h ▸ hv
    · intro q hq
      have : (if 500 < centsOfGroup g && centsOfGroup g < 200000
          then acc ++ [centsOfGroup g] else acc) = acc := by
        rcases Decidable.not_and_iff_or_not.mp hv with h | h <;> simp [h]
      rw [this] at hq
      exact hacc q hq

theorem fallbackOuterFold_bounds :
    ∀ (pats : List (List Char → Option (List Char × List Char)))
      (t : List Char) (acc : List Nat),
      (∀ q ∈ acc, 500 < q ∧ q < 200000) →
      ∀ p ∈ pats.foldl
          (fun acc pat =>
            (findAllM pat t).foldl
              (fun acc g =>
                let v := centsOfGroup g
                if 500 < v && v < 200000 then acc ++ [v] else acc) acc) acc,
        500 < p ∧ p < 200000 := by
  intro pats
  induction pats with
  | nil => intro t acc hacc p hp; exact hacc p hp
  | cons pat pats ih =>
    intro t acc hacc p hp
    simp only [List.foldl_cons] at hp
    exact ih t _ (fun q hq => fallbackInnerFold_bounds _ _ hacc q hq) p hp

/-- Every price the fallback path accepts lies strictly between $5 and
    $2000 (in cents). -/
theorem collectFallbackPrices_bounds (text : String) :
    ∀ p ∈ collectFallbackPrices text, 500 < p ∧ p < 200000 := by
  intro p hp
  exact fallbackOuterFold_bounds _ text.data [] (by simp) p hp

theorem fallbackLoop_mem (base : String) :
    ∀ (eps : List (Node × Node)) (seen : List (List Nat)) (r : ProductRecord),
      r ∈ fallbackLoop base eps seen →
      ∃ ep : Node × Node, r = fallbackRecord base ep.1 ep.2 ∧ fbPrices ep.2 ≠ [] := by
  intro eps
  induction eps with
  | nil => intro seen r hr; cases hr
  | cons ep rest ih =>
    intro seen r hr
    simp only [fallbackLoop] at hr
    by_cases h1 : hrefSkipped ep.1
    · simp only [h1, if_true] at hr
      exact ih _ r hr
    · simp only [h1, Bool.false_eq_true, if_false] at hr
      by_cases h2 : (fbPrices ep.2).isEmpty
      · simp only [h2, if_true] at hr
        exact ih _ r hr
      · simp only [h2, Bool.false_eq_true, if_false] at hr
        by_cases h3 : seen.contains (pySort (fbPrices ep.2))
        · simp only [h3, if_true] at hr
          exact ih _ r hr
        · simp only [h3, Bool.false_eq_true, if_false, List.mem_cons] at hr
          rcases hr with h | h
          · exact ⟨ep, h, by simpa [List.isEmpty_iff] using h2⟩
          · exact ih _ r h

theorem foldl_linkStep_skipped :
    ∀ (links : List Node) (st : Option String × Nat),
      (∀ l ∈ links, hrefSkipped l = true) → links.foldl linkStep st = st := by
  intro links
  induction links with
  | nil => intro st _; rfl
  | cons l ls ih =>
    intro st h
    simp only [List.foldl_cons]
    have hl := h l (List.mem_cons_self _ _)
    have : linkStep st l = st := by simp [linkStep, hl]
    rw [this]
    exact ih st (fun x hx => h x (List.mem_cons_of_mem _ hx))

theorem mem_insertDescScore (x : Nat × Node) :
    ∀ (l : List (Nat × Node)) (z : Nat × Node),
      z ∈ insertDescScore x l → z = x ∨ z ∈ l := by
  intro l
  induction l with
  | nil =>
    intro z hz
    simp only [insertDescScore, List.mem_singleton] at hz
    exact Or.inl hz
  | cons y ys ih =>
    intro z hz
    simp only [insertDescScore] at hz
    by_cases h : x.1 < y.1
    · simp only [h, if_true, List.mem_cons] at hz
      rcases hz with h1 | h1
      · exact Or.inr (h1 ▸ List.mem_cons_self _ _)
      · rcases ih z h1 with h2 | h2
        · exact Or.inl h2
        · exact Or.inr (List.mem_cons_of_mem _ h2)
    · simp only [h, if_false, List.mem_cons] at hz
      rcases hz with h1 | h1
      · exact Or.inl h1
      · exact Or.inr (List.mem_cons.mpr h1)

theorem pairwise_insertDescScore (x : Nat × Node) :
    ∀ (l : List (Nat × Node)),
      l.Pairwise (fun a b => b.1 ≤ a.1) →
      (insertDescScore x l).Pairwise (fun a b => b.1 ≤ a.1) := by
  intro l
  induction l with
  | nil => intro _; simp [insertDescScore]
  | cons y ys ih =>
    intro hp
    rcases List.pairwise_cons.mp hp with ⟨hy, hys⟩
    simp only [insertDescScore]
    by_cases h : x.1 < y.1
    · simp only [h, if_true]
      refine List.pairwise_cons.mpr ⟨fun z hz => ?_, ih hys⟩
      rcases mem_insertDescScore x ys z hz with h1 | h1
      · exact h1 ▸ Nat.le_of_lt h
      · exact hy z h1
    · simp only [h, if_false]
      refine List.pairwise_cons.mpr ⟨fun z hz => ?_, hp⟩
      rcases List.mem_cons.mp hz with h1 | h1
      · exact h1 ▸ Nat.le_of_not_lt h
      · exact Nat.le_trans (hy z h1) (Nat.le_of_not_lt h)

theorem sortDescScore_pairwise (l : List (Nat × Node)) :
    (sortDescScore l).Pairwise (fun a b => b.1 ≤ a.1) := by
  induction l with
  | nil => simp [sortDescScore]
  | cons x xs ih => exact pairwise_insertDescScore x _ ih

theorem parse_products_fst (doc : Node) (html url : String) :
    (parse_products_universal doc html url).1 =
      (if (extract_raw_products doc (baseUrlOf url)).isEmpty then
        extract_products_from_price_patterns doc
          (if baseUrlOf url ≠ "" then baseUrlOf url else url)
      else (extract_raw_products doc (baseUrlOf url)).map (buildRecord (get_domain url))) :=
  rfl

theorem buildRecord_price_fields (domain : String) (raw : RawProduct)
    (ho : (buildRecord domain raw).originalPrice ≠ "N/A")
    (hs : (buildRecord domain raw).salePrice ≠ "N/A") :
    ∃ o s : Nat, (buildRecord domain raw).originalPrice = fmtMoney o ∧
      (buildRecord domain raw).salePrice = fmtMoney s ∧ 0 < o ∧ 0 < s ∧
      (buildRecord domain raw).discountPct = (if s < o then fmtPercent1 o s else "N/A") := by
  cases hro : raw.original? with
  | none => exact absurd (by simp [buildRecord, hro]) ho
  | some o =>
    cases hrs : raw.sale? with
    | none => exact absurd (by simp [buildRecord, hrs]) hs
    | some s =>
      by_cases ho0 : o = 0
      · exact absurd (by simp [buildRecord, hro, ho0]) ho
      · by_cases hs0 : s = 0
        · exact absurd (by simp [buildRecord, hrs, hs0]) hs
        · refine ⟨o, s, by simp [buildRecord, hro, ho0], by simp [buildRecord, hrs, hs0],
            Nat.pos_of_ne_zero ho0, Nat.pos_of_ne_zero hs0, ?_⟩
          simp only [buildRecord, hro, hrs, calculate_discount]
          by_cases hlt : s < o
          · simp [hlt, Nat.pos_of_ne_zero hs0]
          · simp [hlt]

theorem fbSale_mem {container : Node} (hne : fbPrices container ≠ []) :
    fbSale container ∈ fbPrices container := by
  by_cases h2 : 2 ≤ (fbPrices container).length
  · have hps : pySort (fbPrices container) ≠ [] := by
      intro h
      have hperm := pySort_perm (fbPrices container)
      rw [h] at hperm
      exact hne hperm.symm.eq_nil
    cases hh : (pySort (fbPrices container)).head? with
    | none => exact absurd (List.head?_eq_none_iff.mp hh) hps
    | some m =>
      have := (pySort_head?_spec hh).1
      simpa [fbSale, h2, hh] using this
  · cases hh : (fbPrices container).head? with
    | none => exact absurd (List.head?_eq_none_iff.mp hh) hne
    | some m =>
      have := mem_of_head?_eq hh
      simpa [fbSale, h2, hh] using this

theorem fbOriginal?_mem {container : Node} {o : Nat} (h : fbOriginal? container = some o) :
    o ∈ fbPrices container := by
  by_cases h2 : 2 ≤ (fbPrices container).length
  · simp only [fbOriginal?, h2, if_true] at h
    exact (pySort_getLast?_spec h).1
  · simp [fbOriginal?, h2] at h

theorem fallbackRecord_price_fields (base : String) (link container : Node)
    (hne : fbPrices container ≠ [])
    (ho : (fallbackRecord base link container).originalPrice ≠ "N/A") :
    ∃ o s : Nat, (fallbackRecord base link container).originalPrice = fmtMoney o ∧
      (fallbackRecord base link container).salePrice = fmtMoney s ∧ 0 < o ∧ 0 < s ∧
      (fallbackRecord base link container).discountPct =
        (if s < o then fmtPercent1 o s else "N/A") := by
  have hsale : 0 < fbSale container :=
    Nat.lt_trans (by omega) (collectFallbackPrices_bounds _ _ (fbSale_mem hne)).1
  cases hor : fbOriginal? container with
  | none => exact absurd (by simp [fallbackRecord, hor]) ho
  | some o =>
    have hopos : 0 < o :=
      Nat.lt_trans (by omega) (collectFallbackPrices_bounds _ _ (fbOriginal?_mem hor)).1
    refine ⟨o, fbSale container, ?_, ?_, hopos, hsale, ?_⟩
    · simp [fallbackRecord, hor, Nat.pos_iff_ne_zero.mp hopos]
    · simp [fallbackRecord]
    · simp only [fallbackRecord, hor, calculate_discount]
      by_cases hlt : fbSale container < o
      · simp [hlt, hsale]
      · simp [hlt]

theorem isPercentEntry_plus (x : String) : isPercentEntry (x ++ "+") = false := by
  simp only [isPercentEntry]
  have h : (x ++ "+").data = x.data ++ ['+'] := rfl
  rw [h, List.getLast?_concat]
  decide

theorem isPercentEntry_pct (x : String) : isPercentEntry (x ++ "% Off") = true := by
  simp only [isPercentEntry]
  have h : (x ++ "% Off").data = (x.data ++ ['%', ' ', 'O', 'f']) ++ ['f'] := by
    simp [show (x ++ "% Off").data = x.data ++ ("% Off").data from rfl]
  rw [h, List.getLast?_concat]
  decide

theorem countP_freeShipEntries (html : String) :
    (freeShipEntries html).countP isPercentEntry = 0 := by
  rw [List.countP_eq_zero]
  intro s hs
  rcases List.mem_map.mp hs with ⟨a, _, heq⟩
  simp [← heq, isPercentEntry_plus]

theorem mem_pctEntries {html : String} {s : String} (h : s ∈ pctEntries html) :
    s ∈ (topPcts html).map (fun p => p ++ "% Off") := by
  simp only [pctEntries] at h
  by_cases he : (pctMatchStrings html).isEmpty
  · simp [he] at h
  · simpa [he] using h

theorem countP_pctEntries (html : String) :
    (pctEntries html).countP isPercentEntry ≤ 3 := by
  calc (pctEntries html).countP isPercentEntry ≤ (pctEntries html).length :=
        List.countP_le_length _
  _ ≤ 3 := by
      simp only [pctEntries]
      by_cases he : (pctMatchStrings html).isEmpty
      · simp [he]
      · simp only [he, Bool.false_eq_true, if_false, List.length_map, topPcts]
        exact le_trans (List.length_take_le _ _) (le_refl _)

theorem countP_clearanceEntries (html : String) :
    (clearanceEntries html).countP isPercentEntry = 0 := by
  simp only [clearanceEntries]
  by_cases h : wordBoundarySearch ("clearance".data) (pyLower html).data
  · simp only [h, if_true]
    decide
  · simp [h]

theorem countP_selectStylesEntries (html : String) :
    (selectStylesEntries html).countP isPercentEntry = 0 := by
  simp only [selectStylesEntries]
  by_cases h : searchP selectStylesP (pyLower html).data
  · simp only [h, if_true]
    decide
  · simp [h]

/-! ## Claim theorems -/

/-- C9: called on an empty document (zero parsed nodes, empty raw HTML),
    the extraction entry point returns zero product records and zero
    promotions; in the total Lean embedding "returns successfully" is the
    plain equation below. -/
theorem c9_empty_document :
    parse_products_universal (mkDoc []) "" "" = ([], []) := by decide

/-- C8 (counterexample): the fallback price patterns use the strict range
    `5 < price < 2000`, so the boundary values $5.00 and $2000.00 are
    rejected by the fallback collection although the structural Price
    Extractor (closed range `5 <= price <= 2000`) accepts both. -/
theorem c8_boundary_counterexample :
    collectFallbackPrices "$5.00" = [] ∧
    collectFallbackPrices "$2000.00" = [] ∧
    extract_price_bulletproof "$5.00" = some 500 ∧
    extract_price_bulletproof "$2000.00" = some 200000 := by decide

/-- C8 (amended): every price accepted by the fallback extraction's three
    numeric patterns lies strictly between $5 and $2000 (values in cents),
    the boundaries excluded — unlike the structural extractor's closed
    range. -/
theorem c8_open_range_amended :
    ∀ (text : String), ∀ p ∈ collectFallbackPrices text, 500 < p ∧ p < 200000 :=
  fun text p hp => collectFallbackPrices_bounds text p hp

/-- C8 witness: the amended bound at the accepted price of "$6.00". -/
theorem c8_open_range_amended_witness : 500 < 600 ∧ 600 < 200000 :=
  c8_open_range_amended "$6.00" 600 (by decide)

/-- C10: when a container has anchors but every anchor's href contains a
    skip token, the link locator still returns the first anchor's href
    resolved against the base (the skip list only excludes anchors from
    scoring); the link is absent exactly when the container has no
    anchors. -/
theorem c10_skip_list_fallback :
    (∀ (container : Node) (base_url : String),
      container.descElems.filter isAnchorWithHref = [] →
      find_product_link container base_url = none) ∧
    (∀ (container : Node) (base_url : String) (l : Node) (ls : List Node),
      container.descElems.filter isAnchorWithHref = l :: ls →
      (∀ a ∈ l :: ls, hrefSkipped a = true) →
      find_product_link container base_url =
        some (urljoin base_url (l.attrD "href"))) := by
  constructor
  · intro c base h
    simp only [find_product_link, h, List.foldl_nil]
  · intro c base l ls h hall
    simp only [find_product_link, h]
    rw [foldl_linkStep_skipped _ _ hall]

/-- C10 witness: a container whose only anchor points into the cart. -/
theorem c10_skip_list_fallback_witness :
    find_product_link contCartOnly "https://www.example.com" =
      some (urljoin "https://www.example.com" "/cart/add") :=
  c10_skip_list_fallback.2 contCartOnly "https://www.example.com"
    (.elem "a" [("href", "/cart/add")] [.text "Add to cart"]) [] rfl
    (by intro a ha; simp only [List.mem_singleton] at ha; rw [ha]; decide)

/-- C7 (counterexample): percent promotions are chosen by descending
    lexicographic order on the matched digit strings, not numerically: with
    matches 9, 30, 25, 100 the emitted entries are "9% Off", "30% Off",
    "25% Off", and the numerically largest "100% Off" is absent. -/
theorem c7_lexicographic_counterexample :
    extract_site_promotions "9% off 30% off 25% off 100% off" =
      ["9% Off", "30% Off", "25% Off"] ∧
    ¬ ("100% Off" ∈ extract_site_promotions "9% off 30% off 25% off 100% off") := by
  decide

/-- C7 (amended): the promotion list has at most 10 entries and at most 3
    percent-off entries, and each percent-off entry comes from the first 3
    distinct percent strings in descending lexicographic (string) order. -/
theorem c7_promotion_caps_amended :
    ∀ html : String,
      (extract_site_promotions html).length ≤ 10 ∧
      (extract_site_promotions html).countP isPercentEntry ≤ 3 ∧
      (∀ s ∈ extract_site_promotions html, isPercentEntry s = true →
        s ∈ (topPcts html).map (fun p => p ++ "% Off")) := by
  intro html
  refine ⟨List.length_take_le _ _, ?_, ?_⟩
  · calc (extract_site_promotions html).countP isPercentEntry
        ≤ (freeShipEntries html ++ pctEntries html ++ clearanceEntries html ++
            selectStylesEntries html).countP isPercentEntry :=
          (List.take_sublist _ _).countP_le _
    _ ≤ 3 := by
        simp only [List.countP_append, countP_freeShipEntries,
          countP_clearanceEntries, countP_selectStylesEntries]
        have := countP_pctEntries html
        omega
  · intro s hs hpct
    have hmem : s ∈ freeShipEntries html ++ pctEntries html ++ clearanceEntries html ++
        selectStylesEntries html := List.mem_of_mem_take hs
    rcases List.mem_append.mp hmem with h | h
    · rcases List.mem_append.mp h with h | h
      · rcases List.mem_append.mp h with h | h
        · rcases List.mem_map.mp h with ⟨a, _, heq⟩
          rw [← heq] at hpct
          rw [isPercentEntry_plus] at hpct
          cases hpct
        · exact mem_pctEntries h
      · exfalso
        simp only [clearanceEntries] at h
        by_cases hc : wordBoundarySearch ("clearance".data) (pyLower html).data
        · simp only [hc, if_true, List.mem_singleton] at h
          rw [h] at hpct
          simp [isPercentEntry] at hpct
        · simp [hc] at h
    · exfalso
      simp only [selectStylesEntries] at h
      by_cases hc : searchP selectStylesP (pyLower html).data
      · simp only [hc, if_true, List.mem_singleton] at h
        rw [h] at hpct
        simp [isPercentEntry] at hpct
      · simp [hc] at h

/-- C7 witness: the amended statement applied to a one-promotion document. -/
theorem c7_promotion_caps_amended_witness :
    "10% Off" ∈ (topPcts "10% off").map (fun p => p ++ "% Off") :=
  (c7_promotion_caps_amended "10% off").2.2 "10% Off" (by decide) (by decide)

/-- C2: the price-pair resolution.  With a strikethrough original price:
    other prices present gives sale = their minimum, none gives the
    strikethrough value reinterpreted as sale with no original.  Without
    one: two or more (deduplicated) prices give sale = minimum and
    original = maximum, one gives sale only, zero gives neither.  The two
    concrete containers of the claim resolve to (original $120.00, sale
    $89.99) on both branches. -/
theorem c2_price_pair_resolution :
    (∀ (c : Node) (o : Nat), strikeOriginal c = some o →
      (collectPrices c = [] → find_prices_bulletproof c = (none, some o)) ∧
      (collectPrices c ≠ [] →
        ∃ m, find_prices_bulletproof c = (some o, some m) ∧
          m ∈ collectPrices c ∧ ∀ p ∈ collectPrices c, m ≤ p)) ∧
    (∀ c : Node, strikeOriginal c = none →
      (2 ≤ (collectPrices c).length →
        ∃ m M, find_prices_bulletproof c = (some M, some m) ∧
          m ∈ collectPrices c ∧ M ∈ collectPrices c ∧
          ∀ p ∈ collectPrices c, m ≤ p ∧ p ≤ M) ∧
      (∀ p : Nat, collectPrices c = [p] → find_prices_bulletproof c = (none, some p)) ∧
      (collectPrices c = [] → find_prices_bulletproof c = (none, none))) ∧
    find_prices_bulletproof c2aCont = (some 12000, some 8999) ∧
    find_prices_bulletproof c2bCont = (some 12000, some 8999) := by
  refine ⟨?_, ?_, by decide, by decide⟩
  · intro c o hso
    constructor
    · intro hnil
      simp only [find_prices_bulletproof, hso, hnil]
    · intro hne
      cases hcp : collectPrices c with
      | nil => exact absurd hcp hne
      | cons p ps =>
        refine ⟨ps.foldl Nat.min p, ?_, ?_, ?_⟩
        · simp only [find_prices_bulletproof, hso, hcp]
        · rcases foldl_min_mem ps p with h | h
          · rw [h]
            exact List.mem_cons_self _ _
          · exact List.mem_cons_of_mem _ h
        · intro q hq
          rcases List.mem_cons.mp hq with h | h
          · exact h ▸ foldl_min_le_start ps p
          · exact foldl_min_le_mem ps p q h
  · intro c hso
    refine ⟨?_, ?_, ?_⟩
    · intro h2
      have hne : collectPrices c ≠ [] := by
        intro h
        rw [h] at h2
        simp at h2
      have hsne : pySort (collectPrices c) ≠ [] := by
        intro h
        have hperm := pySort_perm (collectPrices c)
        rw [h] at hperm
        exact hne hperm.symm.eq_nil
      cases hh : (pySort (collectPrices c)).head? with
      | none => exact absurd (List.head?_eq_none_iff.mp hh) hsne
      | some m =>
        cases hl : (pySort (collectPrices c)).getLast? with
        | none =>
          exfalso
          apply hsne
          cases hcase : pySort (collectPrices c) with
          | nil => rfl
          | cons a t =>
            rw [hcase] at hl
            rcases List.getLast?_eq_getLast_of_ne_nil (l := a :: t) (by simp) with h
            rw [h] at hl
            cases hl
        | some M =>
          refine ⟨m, M, ?_, (pySort_head?_spec hh).1, (pySort_getLast?_spec hl).1, ?_⟩
          · simp only [find_prices_bulletproof, hso, if_pos h2, hh, hl]
          · intro p hp
            exact ⟨(pySort_head?_spec hh).2 p hp, (pySort_getLast?_spec hl).2 p hp⟩
    · intro p hp
      simp [find_prices_bulletproof, hso, hp]
    · intro hnil
      simp [find_prices_bulletproof, hso, hnil]

/-- C2 witness: the strikethrough branch on the $120/$89.99 container. -/
theorem c2_price_pair_resolution_witness :
    ∃ m, find_prices_bulletproof c2aCont = (some 12000, some m) ∧
      m ∈ collectPrices c2aCont ∧ ∀ p ∈ collectPrices c2aCont, m ≤ p :=
  (c2_price_pair_resolution.1 c2aCont 12000 (by decide)).2 (by decide)

/-- C3: the Price Extractor's evaluations.  "$19.99", "19.99 USD",
    "$1,299.00", "50% off", "$3.00" and "$2500.00" behave as the claim
    says, and the general rule holds: outside the early guards, the first
    in-range value in pattern-priority order is returned and no in-range
    match means no price.  But "€19.99" and "£19.99" yield NO price: the
    euro/pound literals in the source file are double-encoded ("â‚¬", "Â£"),
    so the genuine euro and pound signs never match (encoding slip in the
    code; the mojibake-prefixed forms do extract 19.99). -/
theorem c3_price_extractor :
    extract_price_bulletproof "$19.99" = some 1999 ∧
    extract_price_bulletproof "19.99 USD" = some 1999 ∧
    extract_price_bulletproof "€19.99" = none ∧
    extract_price_bulletproof "£19.99" = none ∧
    extract_price_bulletproof (euroMoji ++ "19.99") = some 1999 ∧
    extract_price_bulletproof (poundMoji ++ "19.99") = some 1999 ∧
    extract_price_bulletproof "$1,299.00" = some 129900 ∧
    extract_price_bulletproof "50% off" = none ∧
    extract_price_bulletproof "$3.00" = none ∧
    extract_price_bulletproof "$2500.00" = none ∧
    (∀ text : String, text ≠ "" → priceGuardsReject (pyStrip text) = false →
      extract_price_bulletproof text =
        (patternFns.flatMap (fun f => f (pyStrip text).data)).find? inRangeB) ∧
    (∀ text : String,
      (patternFns.flatMap (fun f => f (pyStrip text).data)).find? inRangeB = none →
      extract_price_bulletproof text = none) := by
  refine ⟨by decide, by decide, by decide, by decide, by decide, by decide, by decide,
    by decide, by decide, by decide, ?_, ?_⟩
  · intro text hne hguard
    simp only [extract_price_bulletproof, if_neg hne, hguard, Bool.false_eq_true, if_false]
    exact patternLoop_eq_find? _ _
  · intro text hnone
    by_cases hne : text = ""
    · simp [extract_price_bulletproof, hne]
    · by_cases hguard : priceGuardsReject (pyStrip text)
      · simp [extract_price_bulletproof, hne, hguard]
      · simp only [extract_price_bulletproof, if_neg hne, hguard, Bool.false_eq_true,
          if_false]
        rw [patternLoop_eq_find?]
        exact hnone

/-- C3 witness: the general rule applied to "x$15.00y". -/
theorem c3_price_extractor_witness :
    extract_price_bulletproof "x$15.00y" =
      (patternFns.flatMap (fun f => f (pyStrip "x$15.00y").data)).find? inRangeB :=
  c3_price_extractor.2.2.2.2.2.2.2.2.2.2.1 "x$15.00y" (by decide) (by decide)

/-- C1 (counterexample): on `docAlpine` (strikethrough $80.00 beside a
    plain $90.00) the emitted record carries both price fields yet its
    DiscountPercent is the "N/A" sentinel — `OriginalPrice > SalePrice` and
    "never N/A" both fail. -/
theorem c1_discount_invariant_counterexample :
    ¬ (∀ r ∈ (parse_products_universal docAlpine htmlAlpine urlShop).1,
        r.originalPrice ≠ "N/A" → r.salePrice ≠ "N/A" → r.discountPct ≠ "N/A") := by
  decide

/-- C1 (amended): in every emitted record with both price fields present,
    both prices are positive, and DiscountPercent equals
    (Original − Sale) / Original × 100 rounded to one decimal when
    OriginalPrice > SalePrice, and the "N/A" sentinel otherwise (the code
    emits pairs with OriginalPrice ≤ SalePrice when the strikethrough price
    is not the largest). -/
theorem c1_discount_invariant_amended :
    ∀ (doc : Node) (html url : String) (r : ProductRecord),
      r ∈ (parse_products_universal doc html url).1 →
      r.originalPrice ≠ "N/A" → r.salePrice ≠ "N/A" →
      ∃ o s : Nat, r.originalPrice = fmtMoney o ∧ r.salePrice = fmtMoney s ∧
        0 < o ∧ 0 < s ∧
        r.discountPct = (if s < o then fmtPercent1 o s else "N/A") := by
  intro doc html url r hr ho hs
  rw [parse_products_fst] at hr
  by_cases hraws : (extract_raw_products doc (baseUrlOf url)).isEmpty
  · rw [if_pos hraws] at hr
    have hr2 : r ∈ fallbackLoop (if baseUrlOf url ≠ "" then baseUrlOf url else url)
        ((doc.descElemsWP).filter (fun ep => isAnchorWithHref ep.1)) [] := hr
    rcases fallbackLoop_mem _ _ _ r hr2 with ⟨ep, heq, hne⟩
    rw [heq] at ho ⊢
    exact fallbackRecord_price_fields _ ep.1 ep.2 hne ho
  · rw [if_neg hraws] at hr
    rcases List.mem_map.mp hr with ⟨raw, _, heq⟩
    rw [← heq] at ho hs ⊢
    exact buildRecord_price_fields _ raw ho hs

/-- C1 witness: the amended statement at the Walnut record
    ($120.00 / $89.99, discount 25.0%). -/
theorem c1_discount_invariant_amended_witness :
    ∃ o s : Nat,
      (ProductRecord.mk "Walnut Hiking Boot Mens" "N/A" "$120.00" "$89.99" "25.0%"
        "Example" "Footwear").originalPrice = fmtMoney o ∧
      (ProductRecord.mk "Walnut Hiking Boot Mens" "N/A" "$120.00" "$89.99" "25.0%"
        "Example" "Footwear").salePrice = fmtMoney s ∧
      0 < o ∧ 0 < s ∧
      (ProductRecord.mk "Walnut Hiking Boot Mens" "N/A" "$120.00" "$89.99" "25.0%"
        "Example" "Footwear").discountPct =
        (if s < o then fmtPercent1 o s else "N/A") :=
  c1_discount_invariant_amended docWalnut htmlWalnut urlShop
    (ProductRecord.mk "Walnut Hiking Boot Mens" "N/A" "$120.00" "$89.99" "25.0%"
      "Example" "Footwear") (by decide) (by decide) (by decide)

/-- C4 (counterexample): in `docScan` the Alpha container (score 7)
    precedes the Bravo container (score 13) in document order, both
    survive, yet the Bravo record is emitted first — output order is score
    order, not document scan order. -/
theorem c4_document_order_counterexample :
    docScan.descElems.filter (fun e => containerTags.contains e.tag) =
      [contAlpha, contBravo, .elem "a" [("href", "/p/bravo")] [.elem "img" [] []]] ∧
    containerName contAlpha = some "Alpha Hiking Boot Mens" ∧
    containerName contBravo = some "Bravo Hiking Boot Mens" ∧
    (parse_products_universal docScan htmlScan urlShop).1.map (fun r => r.productName) =
      ["Bravo Hiking Boot Mens", "Alpha Hiking Boot Mens"] ∧
    ¬ ((parse_products_universal docScan htmlScan urlShop).1.map (fun r => r.productName) =
      ["Alpha Hiking Boot Mens", "Bravo Hiking Boot Mens"]) :=
  ⟨rfl, by decide, by decide, by decide, by decide⟩

/-- C4 (amended): emitted records follow the candidate processing order —
    containers sorted by descending score (stable, so ties keep document
    order) and capped at 300 — rather than document scan order: the record
    names are a sublist of the names located along that sorted sequence,
    which `sortDescScore` keeps in descending-score order. -/
theorem c4_score_order_amended :
    ∀ (doc : Node) (base_url : String),
      ((extract_raw_products doc base_url).map (fun r => r.name)).Sublist
        ((product_containers doc).filterMap containerName) ∧
      (sortDescScore (scoredCandidates doc)).Pairwise (fun a b => b.1 ≤ a.1) := by
  intro doc base
  constructor
  · have h1 : extract_raw_products doc base =
        dedupByKey ((product_containers doc).filterMap (processContainer base)) [] :=
      extractLoop_eq_dedupByKey base _ []
    rw [h1]
    have h3 := (dedupByKey_sublist
      ((product_containers doc).filterMap (processContainer base)) []).map
      (fun r : RawProduct => r.name)
    rw [List.map_filterMap] at h3
    simpa only [processContainer_name] using h3
  · exact sortDescScore_pairwise _

/-- C5: the main loop is per-container extraction followed by first-wins
    deduplication on the normalized name key `name.lower().strip()[:100]`
    (so of two containers with the same key only the first-processed one's
    record survives), and the emitted records' keys are pairwise
    distinct. -/
theorem c5_dedup_first_wins :
    ∀ (doc : Node) (base_url : String),
      extract_raw_products doc base_url =
        dedupByKey ((product_containers doc).filterMap (processContainer base_url)) [] ∧
      ((extract_raw_products doc base_url).map (fun r => nameKey r.name)).Nodup := by
  intro doc base
  refine ⟨extractLoop_eq_dedupByKey base _ [], ?_⟩
  have h1 : extract_raw_products doc base =
      dedupByKey ((product_containers doc).filterMap (processContainer base)) [] :=
    extractLoop_eq_dedupByKey base _ []
  rw [h1]
  exact (dedupByKey_keys_fresh _ _).1

/-- C6 (counterexample): the Alpine container has no anchors, so no link is
    found, and the emitted record's URL field is "N/A" — not the claimed
    "unknown" sentinel. -/
theorem c6_unknown_sentinel_counterexample :
    find_product_link contAlpine (baseUrlOf urlShop) = none ∧
    (parse_products_universal docAlpine htmlAlpine urlShop).1.map (fun r => r.productURL) =
      ["N/A"] ∧
    ¬ ((parse_products_universal docAlpine htmlAlpine urlShop).1.map
        (fun r => r.productURL) = ["unknown"]) := by
  refine ⟨by decide, by decide, by decide⟩

/-- C6 (amended): the sentinel for a record without a product link is
    "N/A": a raw product whose link is absent builds a record with URL
    field "N/A", and on the structural path the emitted records are exactly
    the built records of the raw products. -/
theorem c6_na_sentinel_amended :
    (∀ (domain : String) (raw : RawProduct), raw.link = none →
      (buildRecord domain raw).productURL = "N/A") ∧
    (∀ (doc : Node) (html url : String),
      extract_raw_products doc (baseUrlOf url) ≠ [] →
      (parse_products_universal doc html url).1 =
        (extract_raw_products doc (baseUrlOf url)).map (buildRecord (get_domain url))) := by
  constructor
  · intro domain raw h
    simp [buildRecord, h]
  · intro doc html url hne
    rw [parse_products_fst]
    rw [if_neg (by simpa [List.isEmpty_iff] using hne)]

/-- C6 witness: a link-less raw product builds a record with URL "N/A". -/
theorem c6_na_sentinel_amended_witness :
    (buildRecord "example.com"
      (RawProduct.mk "Cedar Hiking Boot Mens" none none none)).productURL = "N/A" :=
  c6_na_sentinel_amended.1 "example.com"
    (RawProduct.mk "Cedar Hiking Boot Mens" none none none) rfl

end FootwearScrape
